import Mathlib

/-!
Verification of the RippleNet recommender notebook
(`notebooks/02_model/ripplenet_deep_dive.ipynb`).

The notebook under `src/` is thin glue: it builds `user_history_dict` from the
training ratings and then calls `get_ripple_set`, `RippleNet`, `predict` and
`recommend_k_items` from the `reco_utils.recommender.ripplenet` package, whose
source is not part of this repository snapshot.  The `user_history_dict`
construction is embedded directly from the notebook cell; the ripple-set
builder, the model constructor, prediction and ranking are modelled from the
specification (sections 4.2, 4.4, 4.6, 7 of the spec), as indicated on each
definition.
-/

namespace RippleNetSpec

/-- A knowledge-graph triple `(head, relation, tail)`. -/
structure Triple where
  h : Nat
  r : Nat
  t : Nat
deriving DecidableEq, Repr, Inhabited

/-- The Knowledge Graph Index: maps each entity to its outgoing
`(relation, tail)` pairs (spec section 4.1: `neighbors(entity)`).  Entities with
no outgoing triples return the empty sequence. -/
abbrev KG := Nat → List (Nat × Nat)

/-- Modelled from the spec: section 4.2 step 1 of the ripple-set builder
(the missing `reco_utils.recommender.ripplenet.data_loader`).  The candidate
triple pool of a frontier: the union, over every entity `h` in the frontier,
of `neighbors(h)` expressed as triples `(h, r, t)`.  Duplicates are kept
(spec section 4.1). -/
def pool_of (kg : KG) (frontier : List Nat) : List Triple :=
  frontier.flatMap (fun e => (kg e).map (fun rt => ⟨e, rt.1, rt.2⟩))

/-- Modelled from the spec: sampling `n` elements with replacement (spec
section 4.2 step 3, case `|pool| < n_memory`).  The random source is an
arbitrary function `rand` from draw counter to natural number; each draw picks
the pool index `rand (c+i) % pool.length`. -/
def sampleWith [Inhabited α] (rand : Nat → Nat) (c : Nat) (pool : List α)
    (n : Nat) : List α :=
  (List.range n).map (fun i => pool.getD (rand (c + i) % pool.length) default)

/-- Modelled from the spec: sampling `n` elements without replacement (spec
section 4.2 step 3, case `|pool| ≥ n_memory`): each draw removes the chosen
element from the remaining pool. -/
def sampleWithout [DecidableEq α] [Inhabited α] (rand : Nat → Nat) :
    Nat → List α → Nat → List α
  | _, _, 0 => []
  | c, avail, n + 1 =>
    if avail.isEmpty then []
    else
      let x := avail.getD (rand c % avail.length) default
      x :: sampleWithout rand (c + 1) (avail.erase x) n

/-- Modelled from the spec: section 4.2 step 3.  Sample `m` triples from the
pool: with replacement if `|pool| < m`, without replacement if `|pool| ≥ m`. -/
def sample [DecidableEq α] [Inhabited α] (rand : Nat → Nat) (c : Nat)
    (pool : List α) (m : Nat) : List α :=
  if pool.length < m then sampleWith rand c pool m
  else sampleWithout rand c pool m

/-- Modelled from the spec: the hop loop of the ripple-set builder (spec
section 4.2, steps 1-4).  Each list entry is the hop's ripple set paired with
the frontier in force after that hop.  On an empty pool the hop's ripple set
is the previous hop's one when it exists (else empty) and the frontier is not
expanded; on a non-empty pool `m` triples are sampled and the new frontier is
the set of distinct tail entities of the sampled ripple set. -/
def ripple_run (kg : KG) (rand : Nat → Nat) (m : Nat) :
    Nat → Nat → List Nat → Option (List Triple) → List (List Triple × List Nat)
  | 0, _, _, _ => []
  | n + 1, c, frontier, prev =>
    let pool := pool_of kg frontier
    if pool.isEmpty then
      let cur := prev.getD []
      (cur, frontier) :: ripple_run kg rand m n c frontier (some cur)
    else
      let cur := sample rand c pool m
      let nf := (cur.map Triple.t).eraseDups
      (cur, nf) :: ripple_run kg rand m n (c + m) nf (some cur)

/-- Modelled from the spec: `get_ripple_set` (spec section 4.2).  For a user
present in the positive-history mapping the frontier starts at the user's
history; a user absent from the mapping receives `n_hop` empty ripple sets. -/
def get_ripple_set (kg : KG) (rand : Nat → Nat)
    (history : List (Nat × List Nat)) (n_hop n_memory : Nat) (u : Nat) :
    List (List Triple) :=
  match history.lookup u with
  | none => List.replicate n_hop []
  | some items => (ripple_run kg rand n_memory n_hop 0 items none).map Prod.fst

/-- The candidate pool is non-empty at every hop of the run (the hypothesis of
the spec's length invariant, section 8). -/
def poolsNonempty (kg : KG) (rand : Nat → Nat) (m : Nat) :
    Nat → Nat → List Nat → Bool
  | 0, _, _ => true
  | n + 1, c, frontier =>
    let pool := pool_of kg frontier
    !pool.isEmpty &&
      poolsNonempty kg rand m n (c + m)
        (((sample rand c pool m).map Triple.t).eraseDups)

/-- The concrete scenario graph of spec section 8: entities `{0,1,2,3}`,
triples `{(0,0,1),(1,0,2),(2,0,3)}`. -/
def kgC5 : KG := fun e =>
  if e = 0 then [(0, 1)] else if e = 1 then [(0, 2)] else if e = 2 then [(0, 3)] else []

/-- A one-edge graph with the single triple `(0,0,1)`: entity 1 is terminal,
so a two-hop walk from history `{0}` dries up at hop 2. -/
def kgLine : KG := fun e => if e = 0 then [(0, 1)] else []

lemma getD_mem {α} (l : List α) (i : Nat) (d : α) (h : i < l.length) :
    l.getD i d ∈ l := by
  rw [List.getD_eq_getElem l d h]
  exact List.getElem_mem h

lemma getD_mod_mem {α} [Inhabited α] (l : List α) (y : Nat) (h : l ≠ []) :
    l.getD (y % l.length) default ∈ l :=
  getD_mem l _ default (Nat.mod_lt y (List.length_pos.mpr h))

lemma mem_pool_of {kg : KG} {frontier : List Nat} {x : Triple}
    (hx : x ∈ pool_of kg frontier) : x.h ∈ frontier := by
  simp only [pool_of, List.mem_flatMap, List.mem_map] at hx
  obtain ⟨e, he, rt, _, rfl⟩ := hx
  exact he

lemma sampleWith_length [Inhabited α] (rand : Nat → Nat) (c : Nat)
    (pool : List α) (n : Nat) : (sampleWith rand c pool n).length = n := by
  simp [sampleWith]

lemma sampleWith_mem [Inhabited α] {rand : Nat → Nat} {c : Nat}
    {pool : List α} {n : Nat} (hp : pool ≠ []) {x : α}
    (hx : x ∈ sampleWith rand c pool n) : x ∈ pool := by
  simp only [sampleWith, List.mem_map, List.mem_range] at hx
  obtain ⟨i, _, rfl⟩ := hx
  exact getD_mod_mem pool _ hp

lemma sampleWithout_length [DecidableEq α] [Inhabited α] (rand : Nat → Nat) :
    ∀ (n c : Nat) (avail : List α), n ≤ avail.length →
      (sampleWithout rand c avail n).length = n := by
  intro n
  induction n with
  | zero => intro c avail _; rfl
  | succ n ih =>
    intro c avail hn
    have hne : avail ≠ [] := by
      intro h; rw [h] at hn; simp at hn
    have hmem : avail.getD (rand c % avail.length) default ∈ avail :=
      getD_mod_mem avail _ hne
    rw [sampleWithout, if_neg (by simpa [List.isEmpty_iff] using hne)]
    have h2 : n ≤ (avail.erase (avail.getD (rand c % avail.length) default)).length := by
      rw [List.length_erase_of_mem hmem]; omega
    have h3 := ih (c + 1) (avail.erase (avail.getD (rand c % avail.length) default)) h2
    simpa using h3

lemma sampleWithout_subperm [DecidableEq α] [Inhabited α] (rand : Nat → Nat) :
    ∀ (n c : Nat) (avail : List α), List.Subperm (sampleWithout rand c avail n) avail := by
  intro n
  induction n with
  | zero => intro c avail; exact List.nil_subperm
  | succ n ih =>
    intro c avail
    by_cases hne : avail.isEmpty
    · rw [sampleWithout, if_pos hne]; exact List.nil_subperm
    · have hne' : avail ≠ [] := by simpa [List.isEmpty_iff] using hne
      have hmem : avail.getD (rand c % avail.length) default ∈ avail :=
        getD_mem _ _ _ (Nat.mod_lt _ (List.length_pos.mpr hne'))
      rw [sampleWithout, if_neg hne]
      exact ((List.subperm_cons _).mpr
        (ih (c + 1) (avail.erase (avail.getD (rand c % avail.length) default)))).trans
        ((List.perm_cons_erase hmem).symm.subperm)

lemma sample_length [DecidableEq α] [Inhabited α] (rand : Nat → Nat) (c : Nat)
    (pool : List α) (m : Nat) : (sample rand c pool m).length = m := by
  unfold sample
  split
  · exact sampleWith_length rand c pool m
  · next h => exact sampleWithout_length rand m c pool (by omega)

lemma sample_mem [DecidableEq α] [Inhabited α] {rand : Nat → Nat} {c : Nat}
    {pool : List α} {m : Nat} (hp : pool ≠ []) {x : α}
    (hx : x ∈ sample rand c pool m) : x ∈ pool := by
  unfold sample at hx
  split at hx
  · exact sampleWith_mem hp hx
  · exact (sampleWithout_subperm rand m c pool).subset hx

/-- A fixed random source used to instantiate theorems on concrete inputs. -/
def rand0 : Nat → Nat := fun _ => 0

lemma ripple_run_length (kg : KG) (rand : Nat → Nat) (m : Nat) :
    ∀ (n c : Nat) (frontier : List Nat) (prev : Option (List Triple)),
      (ripple_run kg rand m n c frontier prev).length = n := by
  intro n
  induction n with
  | zero => intro c f p; rfl
  | succ n ih =>
    intro c f p
    by_cases h : (pool_of kg f).isEmpty <;> simp [ripple_run, h, ih]

lemma poolsNonempty_succ {kg : KG} {rand : Nat → Nat} {m n c : Nat}
    {frontier : List Nat}
    (hp : poolsNonempty kg rand m (n + 1) c frontier = true) :
    pool_of kg frontier ≠ [] ∧
      poolsNonempty kg rand m n (c + m)
        (((sample rand c (pool_of kg frontier) m).map Triple.t).eraseDups) = true := by
  simp only [poolsNonempty, Bool.and_eq_true, Bool.not_eq_true'] at hp
  exact ⟨by simpa [List.isEmpty_iff] using hp.1, hp.2⟩

lemma ripple_run_cons {kg : KG} {rand : Nat → Nat} {m n c : Nat}
    {frontier : List Nat} {prev : Option (List Triple)}
    (hp : pool_of kg frontier ≠ []) :
    ripple_run kg rand m (n + 1) c frontier prev =
      (sample rand c (pool_of kg frontier) m,
        ((sample rand c (pool_of kg frontier) m).map Triple.t).eraseDups) ::
      ripple_run kg rand m n (c + m)
        (((sample rand c (pool_of kg frontier) m).map Triple.t).eraseDups)
        (some (sample rand c (pool_of kg frontier) m)) := by
  rw [ripple_run, if_neg (by simpa [List.isEmpty_iff] using hp)]

lemma ripple_run_entries (kg : KG) (rand : Nat → Nat) (m : Nat) :
    ∀ (n c : Nat) (frontier : List Nat) (prev : Option (List Triple)),
      poolsNonempty kg rand m n c frontier = true →
      ∀ e ∈ ripple_run kg rand m n c frontier prev,
        e.1.length = m ∧ e.2 = (e.1.map Triple.t).eraseDups := by
  intro n
  induction n with
  | zero => intro c f p _ e he; simp [ripple_run] at he
  | succ n ih =>
    intro c f p hp e he
    obtain ⟨h1, h2⟩ := poolsNonempty_succ hp
    rw [ripple_run_cons h1] at he
    rcases List.mem_cons.mp he with rfl | he
    · exact ⟨sample_length rand c (pool_of kg f) m, rfl⟩
    · exact ih _ _ _ h2 e he

lemma getD_replicate {α} (a d : α) :
    ∀ (n i : Nat), i < n → (List.replicate n a).getD i d = a := by
  intro n
  induction n with
  | zero => intro i h; omega
  | succ n ih =>
    intro i h
    cases i with
    | zero => rfl
    | succ i =>
      simpa [List.replicate_succ, List.getD_cons_succ] using ih i (by omega)

lemma ripple_run_const (kg : KG) (rand : Nat → Nat) (m : Nat) :
    ∀ (n c : Nat) (frontier : List Nat) (prev : Option (List Triple)),
      pool_of kg frontier = [] →
      ripple_run kg rand m n c frontier prev =
        List.replicate n (prev.getD [], frontier) := by
  intro n
  induction n with
  | zero => intro c f p _; rfl
  | succ n ih =>
    intro c f p hp
    rw [ripple_run, if_pos (by simpa [List.isEmpty_iff] using hp)]
    show (p.getD [], f) :: ripple_run kg rand m n c f (some (p.getD [])) = _
    rw [List.replicate_succ, ih c f (some (p.getD [])) hp]
    rfl

lemma ripple_run_heads_fresh (kg : KG) (rand : Nat → Nat) (m : Nat) :
    ∀ (n c : Nat) (frontier : List Nat) (prev : Option (List Triple)) (k : Nat),
      k < n →
      pool_of kg (if k = 0 then frontier
        else ((ripple_run kg rand m n c frontier prev).getD (k - 1) ([], [])).2) ≠ [] →
      ∀ x ∈ ((ripple_run kg rand m n c frontier prev).getD k ([], [])).1,
        x.h ∈ (if k = 0 then frontier
          else ((ripple_run kg rand m n c frontier prev).getD (k - 1) ([], [])).2) := by
  intro n
  induction n with
  | zero => intro c f p k hk; omega
  | succ n ih =>
    intro c f p k hk
    by_cases hp : pool_of kg f = []
    · rw [ripple_run_const kg rand m (n + 1) c f p hp]
      cases k with
      | zero =>
        intro hfresh
        exact absurd hp (by simpa using hfresh)
      | succ k =>
        intro hfresh
        rw [if_neg (Nat.succ_ne_zero k), Nat.add_sub_cancel,
          getD_replicate _ _ (n + 1) k (by omega)] at hfresh
        exact absurd hp (by simpa using hfresh)
    · rw [ripple_run_cons hp]
      cases k with
      | zero =>
        intro _ x hx
        rw [List.getD_cons_zero] at hx
        rw [if_pos rfl]
        exact mem_pool_of (sample_mem hp hx)
      | succ k =>
        intro hfresh x hx
        rw [List.getD_cons_succ] at hx
        rw [if_neg (Nat.succ_ne_zero k), Nat.add_sub_cancel] at hfresh ⊢
        cases k with
        | zero =>
          rw [List.getD_cons_zero] at hfresh ⊢
          have h0 := ih (c + m) _ (some (sample rand c (pool_of kg f) m)) 0
            (by omega) (by simpa using hfresh) x hx
          simpa using h0
        | succ j =>
          rw [List.getD_cons_succ] at hfresh ⊢
          have hj := ih (c + m) _ (some (sample rand c (pool_of kg f) m)) (j + 1)
            (by omega)
            (by simpa [Nat.succ_ne_zero, Nat.add_sub_cancel] using hfresh) x hx
          simpa [Nat.succ_ne_zero, Nat.add_sub_cancel] using hj

/-- C1: for every user with a non-empty positive history whose candidate
triple pool is non-empty at every hop, ripple-set construction
(`get_ripple_set`) produces `n_hop` ripple sets, each a sequence of length
exactly `n_memory`. -/
theorem get_ripple_set_lengths (kg : KG) (rand : Nat → Nat)
    (history : List (Nat × List Nat)) (H m u : Nat) (items : List Nat)
    (hu : history.lookup u = some items) (_hne : items ≠ [])
    (hpools : poolsNonempty kg rand m H 0 items = true) :
    (get_ripple_set kg rand history H m u).length = H ∧
    ∀ s ∈ get_ripple_set kg rand history H m u, s.length = m := by
  unfold get_ripple_set
  rw [hu]
  refine ⟨by simp [ripple_run_length], ?_⟩
  intro s hs
  simp only [List.mem_map] at hs
  obtain ⟨e, he, rfl⟩ := hs
  exact (ripple_run_entries kg rand m H 0 items none hpools e he).1

/-- Witness for C1: the spec's concrete scenario graph with history `{0}`,
`n_hop = 2`, `n_memory = 2`. -/
theorem get_ripple_set_lengths_witness :
    ([(0, [0])] : List (Nat × List Nat)).lookup 0 = some [0] ∧
    ([0] : List Nat) ≠ [] ∧
    poolsNonempty kgC5 rand0 2 2 0 [0] = true ∧
    ((get_ripple_set kgC5 rand0 [(0, [0])] 2 2 0).length = 2 ∧
      ∀ s ∈ get_ripple_set kgC5 rand0 [(0, [0])] 2 2 0, s.length = 2) :=
  ⟨by decide, by decide, by decide,
    get_ripple_set_lengths kgC5 rand0 [(0, [0])] 2 2 0 [0]
      (by decide) (by decide) (by decide)⟩

/-- C2: when the pool is non-empty, `sample` draws exactly `n_memory` triples
from the pool, switching to sampling with replacement exactly when
`|pool| < n_memory` and sampling without replacement (the result is a
sub-permutation of the pool, so no pool position is used twice) when
`|pool| ≥ n_memory`.  The uniform random draw of the implementation is
modelled by the arbitrary random source `rand`. -/
theorem sample_mode_selection (pool : List Triple) (rand : Nat → Nat)
    (c m : Nat) (hp : pool ≠ []) :
    (sample rand c pool m).length = m ∧
    (∀ x ∈ sample rand c pool m, x ∈ pool) ∧
    (pool.length < m → sample rand c pool m = sampleWith rand c pool m) ∧
    (m ≤ pool.length →
      sample rand c pool m = sampleWithout rand c pool m ∧
      List.Subperm (sample rand c pool m) pool) := by
  refine ⟨sample_length rand c pool m, fun x hx => sample_mem hp hx, ?_, ?_⟩
  · intro h
    unfold sample
    rw [if_pos h]
  · intro h
    unfold sample
    rw [if_neg (by omega)]
    exact ⟨rfl, sampleWithout_subperm rand m c pool⟩

/-- A concrete two-triple pool used to instantiate the sampling theorem. -/
def poolW : List Triple := [⟨0, 0, 1⟩, ⟨1, 0, 2⟩]

/-- Witness for C2: a two-triple pool sampled at memory size equal to the pool
size. -/
theorem sample_mode_selection_witness :
    poolW ≠ [] ∧
    ((sample rand0 0 poolW 2).length = 2 ∧
      (∀ x ∈ sample rand0 0 poolW 2, x ∈ poolW) ∧
      (poolW.length < 2 → sample rand0 0 poolW 2 = sampleWith rand0 0 poolW 2) ∧
      (2 ≤ poolW.length →
        sample rand0 0 poolW 2 = sampleWithout rand0 0 poolW 2 ∧
        List.Subperm (sample rand0 0 poolW 2) poolW)) :=
  ⟨by decide, sample_mode_selection poolW rand0 0 2 (by decide)⟩

/-- C3 counterexample: on the one-edge graph with history `{0}`, `n_hop = 2`
and `n_memory = 1`, the hop-2 ripple set is carried forward from hop 1 and its
triple's head `0` is not in the hop-1 frontier `[1]`, refuting the claim that
every triple of the hop-`k` ripple set has its head in the hop-`(k-1)`
frontier. -/
theorem ripple_heads_counterexample :
    ((ripple_run kgLine rand0 1 2 0 [0] none).getD 1 ([], [])).1 =
      [⟨0, 0, 1⟩] ∧
    ((ripple_run kgLine rand0 1 2 0 [0] none).getD 0 ([], [])).2 = [1] ∧
    (⟨0, 0, 1⟩ : Triple).h ∉
      ((ripple_run kgLine rand0 1 2 0 [0] none).getD 0 ([], [])).2 := by
  decide

/-- C3 (amended): for every user and every hop `k` in `1..H` whose candidate
triple pool is non-empty — i.e. at which the ripple set is freshly sampled
rather than carried forward — every triple of the hop-`k` ripple set has its
head entity in the hop-`(k-1)` frontier, the hop-0 frontier being the user's
positive-item history.  Only carried-forward hops, the ones the
counterexample exhibits, are excluded. -/
theorem get_ripple_set_heads (kg : KG) (rand : Nat → Nat)
    (history : List (Nat × List Nat)) (H m u : Nat) (items : List Nat)
    (hu : history.lookup u = some items)
    (k : Nat) (hk : k < H)
    (hfresh : pool_of kg (if k = 0 then items
      else ((ripple_run kg rand m H 0 items none).getD (k - 1) ([], [])).2) ≠ []) :
    ∀ x ∈ (get_ripple_set kg rand history H m u).getD k [],
      x.h ∈ (if k = 0 then items
             else ((ripple_run kg rand m H 0 items none).getD (k - 1) ([], [])).2) := by
  unfold get_ripple_set
  rw [hu]
  intro x hx
  have hkl : k < (ripple_run kg rand m H 0 items none).length := by
    rw [ripple_run_length]; exact hk
  have hgd : (List.map Prod.fst (ripple_run kg rand m H 0 items none)).getD k [] =
      ((ripple_run kg rand m H 0 items none).getD k ([], [])).1 := by
    rw [List.getD_eq_getElem _ _ (by simpa using hkl), List.getD_eq_getElem _ _ hkl,
      List.getElem_map]
  rw [hgd] at hx
  exact ripple_run_heads_fresh kg rand m H 0 items none k hk hfresh x hx

/-- Witness for the amended C3: the freshly sampled hop 1 of the
counterexample's own input (the one-edge graph, history `{0}`, two hops),
whose run dries up at hop 2. -/
theorem get_ripple_set_heads_witness :
    ([(0, [0])] : List (Nat × List Nat)).lookup 0 = some [0] ∧
    (0 : Nat) < 2 ∧
    pool_of kgLine (if 0 = 0 then [0]
      else ((ripple_run kgLine rand0 1 2 0 [0] none).getD (0 - 1) ([], [])).2) ≠ [] ∧
    ∀ x ∈ (get_ripple_set kgLine rand0 [(0, [0])] 2 1 0).getD 0 [],
      x.h ∈ (if 0 = 0 then [0]
             else ((ripple_run kgLine rand0 1 2 0 [0] none).getD (0 - 1) ([], [])).2) :=
  ⟨by decide, by decide, by decide,
    get_ripple_set_heads kgLine rand0 [(0, [0])] 2 1 0 [0]
      (by decide) 0 (by decide) (by decide)⟩

/-- C4: at any point where the candidate pool of the current frontier is
empty, the hop's ripple set is the previous hop's ripple set when one exists
(else empty), the frontier stops expanding, and every deeper hop is defined
identically, so no hop beyond the first empty pool introduces new triples. -/
theorem ripple_run_empty_pool (kg : KG) (rand : Nat → Nat) (m : Nat) :
    ∀ (n c : Nat) (frontier : List Nat) (prev : Option (List Triple)),
      pool_of kg frontier = [] →
      ripple_run kg rand m n c frontier prev =
        List.replicate n (prev.getD [], frontier) := by
  intro n c frontier prev hp
  exact ripple_run_const kg rand m n c frontier prev hp

/-- Witness for C4: a frontier with no outgoing triples carries the previous
ripple set forward for all three remaining hops. -/
theorem ripple_run_empty_pool_witness :
    pool_of kgLine [5] = [] ∧
    ripple_run kgLine rand0 1 3 0 [5] (some [⟨0, 0, 1⟩]) =
      List.replicate 3 (((some [⟨0, 0, 1⟩] : Option (List Triple)).getD []), [5]) :=
  ⟨by decide, ripple_run_empty_pool kgLine rand0 1 3 0 [5] (some [⟨0, 0, 1⟩]) (by decide)⟩

/-- C5: after sampling a hop's ripple set the next frontier is the set of
distinct tail entities of the sampled ripple set; and in the spec's concrete
scenario (graph `{(0,0,1),(1,0,2),(2,0,3)}`, history `{0}`, `n_hop = 2`,
`n_memory = 2`) the hop-1 ripple set is two copies of `(0,0,1)` and the hop-2
ripple set two copies of `(1,0,2)`, for every random source. -/
theorem frontier_from_sampled_set :
    (∀ (kg : KG) (rand : Nat → Nat) (m n c : Nat) (frontier : List Nat)
        (prev : Option (List Triple)),
      poolsNonempty kg rand m n c frontier = true →
      ∀ e ∈ ripple_run kg rand m n c frontier prev,
        e.2 = (e.1.map Triple.t).eraseDups) ∧
    (∀ rand : Nat → Nat,
      get_ripple_set kgC5 rand [(0, [0])] 2 2 0 =
        [[⟨0, 0, 1⟩, ⟨0, 0, 1⟩], [⟨1, 0, 2⟩, ⟨1, 0, 2⟩]]) := by
  constructor
  · intro kg rand m n c frontier prev hp e he
    exact (ripple_run_entries kg rand m n c frontier prev hp e he).2
  · intro rand
    have hpool1 : pool_of kgC5 [0] = [⟨0, 0, 1⟩] := by decide
    have hs1 : sample rand 0 (pool_of kgC5 [0]) 2 = [⟨0, 0, 1⟩, ⟨0, 0, 1⟩] := by
      rw [hpool1]
      simp [sample, sampleWith, Nat.mod_one, List.range_succ]
    have hpool2 : pool_of kgC5 [1] = [⟨1, 0, 2⟩] := by decide
    have hs2 : sample rand 2 (pool_of kgC5 [1]) 2 = [⟨1, 0, 2⟩, ⟨1, 0, 2⟩] := by
      rw [hpool2]
      simp [sample, sampleWith, Nat.mod_one, List.range_succ]
    have hd1 : (([⟨0, 0, 1⟩, ⟨0, 0, 1⟩] : List Triple).map Triple.t).eraseDups = [1] := by
      decide
    show (ripple_run kgC5 rand 2 2 0 [0] none).map Prod.fst = _
    rw [ripple_run_cons (by rw [hpool1]; decide), hs1, hd1,
      ripple_run_cons (by rw [hpool2]; decide), hs2]
    rfl

/-- Witness for C5: the frontier rule evaluated on the first hop of the
concrete scenario. -/
theorem frontier_from_sampled_set_witness :
    poolsNonempty kgC5 rand0 2 2 0 [0] = true ∧
    (([⟨0, 0, 1⟩, ⟨0, 0, 1⟩], [1]) : List Triple × List Nat) ∈
      ripple_run kgC5 rand0 2 2 0 [0] none ∧
    (([⟨0, 0, 1⟩, ⟨0, 0, 1⟩], [1]) : List Triple × List Nat).2 =
      ((([⟨0, 0, 1⟩, ⟨0, 0, 1⟩], [1]) : List Triple × List Nat).1.map
        Triple.t).eraseDups :=
  ⟨by decide, by decide,
    frontier_from_sampled_set.1 kgC5 rand0 2 2 0 [0] none (by decide)
      ([⟨0, 0, 1⟩, ⟨0, 0, 1⟩], [1]) (by decide)⟩

/-- Ranking order for top-k (spec section 4.6): score descending, ties broken
by item id ascending. -/
def rank_before (score : Nat → ℚ) (a b : Nat) : Prop :=
  score b < score a ∨ (score a = score b ∧ a ≤ b)

instance (score : Nat → ℚ) : DecidableRel (rank_before score) := fun a b => by
  unfold rank_before
  infer_instance

/-- Modelled from the spec: the per-user top-k of `recommend_k_items` (spec
section 4.6, the missing `reco_utils.recommender.ripplenet.model`).  When
`remove_seen` is set, items of the user's training-time positive history are
excluded from the candidate set before sorting and slicing; candidates are
sorted by score descending with ties broken by item id, and the first `k` are
returned. -/
def recommend_k_items (candidates seen : List Nat) (score : Nat → ℚ)
    (k : Nat) (remove_seen : Bool) : List Nat :=
  let cands :=
    if remove_seen then candidates.filter (fun i => decide (i ∉ seen))
    else candidates
  (List.insertionSort (rank_before score) cands).take k

/-- C6: with `remove_seen = true`, no previously-seen item appears in the
returned top-k list, and the returned list length equals
`min(k, number of available unseen items)`. -/
theorem recommend_k_items_remove_seen (candidates seen : List Nat)
    (score : Nat → ℚ) (k : Nat) :
    (∀ x ∈ recommend_k_items candidates seen score k true, x ∉ seen) ∧
    (recommend_k_items candidates seen score k true).length =
      min k (candidates.filter (fun i => decide (i ∉ seen))).length := by
  have hdef : recommend_k_items candidates seen score k true =
      (List.insertionSort (rank_before score)
        (candidates.filter (fun i => decide (i ∉ seen)))).take k := rfl
  constructor
  · intro x hx
    rw [hdef] at hx
    have hx1 : x ∈ List.insertionSort (rank_before score)
        (candidates.filter (fun i => decide (i ∉ seen))) :=
      List.take_subset k _ hx
    have hx2 := (List.mem_insertionSort (rank_before score)).1 hx1
    exact of_decide_eq_true (List.mem_filter.mp hx2).2
  · rw [hdef, List.length_take, List.length_insertionSort]

/-- A concrete scoring surface used to instantiate the ranking theorem. -/
def scoreW : Nat → ℚ := fun n => (n : ℚ)

/-- Witness for C6: with candidates `[5, 9]` and seen item `9`, item `5` is
recommended and the seen item is indeed excluded. -/
theorem recommend_k_items_remove_seen_witness :
    (5 : Nat) ∈ recommend_k_items [5, 9] [9] scoreW 2 true ∧
    (5 : Nat) ∉ ([9] : List Nat) :=
  ⟨by decide, (recommend_k_items_remove_seen [5, 9] [9] scoreW 2).1 5 (by decide)⟩

inductive ConfigError where
  | badHop
  | badMemory
  | badMode
  | badOptimizer
deriving DecidableEq, Repr

/-- The hyperparameter bundle accepted by the RippleNet constructor (notebook
cell constructing `RippleNet(...)`). -/
structure RippleNetConfig where
  dim : Nat
  n_hop : Nat
  kge_weight : ℚ
  l2_weight : ℚ
  lr : ℚ
  n_memory : Nat
  item_update_mode : String
  using_all_hops : Bool
  n_entity : Nat
  n_relation : Nat
  optimizer_method : String
  seed : Nat
deriving DecidableEq, Repr

/-- The four recognized item-update policies (spec section 4.4). -/
def validItemUpdateModes : List String :=
  ["replace", "plus", "plus_transform", "replace_transform"]

/-- The recognized optimizer names (notebook cell listing
`adam, adadelta, adagrad, ftrl, gd, rmsprop`). -/
def validOptimizers : List String :=
  ["adam", "adadelta", "adagrad", "ftrl", "gd", "rmsprop"]

/-- Modelled from the spec: section 7 fail-fast validation of the `RippleNet`
constructor (the missing `reco_utils.recommender.ripplenet.model`).  An
invalid hyperparameter yields a configuration error; a valid configuration is
stored exactly as supplied. -/
def RippleNet_construct (dim n_hop : Nat) (kge_weight l2_weight lr : ℚ)
    (n_memory : Nat) (item_update_mode : String) (using_all_hops : Bool)
    (n_entity n_relation : Nat) (optimizer_method : String) (seed : Nat) :
    Except ConfigError RippleNetConfig :=
  if n_hop < 1 then .error .badHop
  else if n_memory < 1 then .error .badMemory
  else if item_update_mode ∉ validItemUpdateModes then .error .badMode
  else if optimizer_method ∉ validOptimizers then .error .badOptimizer
  else .ok ⟨dim, n_hop, kge_weight, l2_weight, lr, n_memory, item_update_mode,
    using_all_hops, n_entity, n_relation, optimizer_method, seed⟩

/-- C8: constructing the model with any invalid hyperparameter (`n_hop < 1`,
`n_memory < 1`, an unrecognized item-update mode, or an unknown optimizer
name) fails at construction time with a configuration error, and a successful
construction stores exactly the supplied hyperparameters — no silent
defaulting. -/
theorem ripplenet_construct_fail_fast (dim n_hop : Nat)
    (kge_weight l2_weight lr : ℚ) (n_memory : Nat) (item_update_mode : String)
    (using_all_hops : Bool) (n_entity n_relation : Nat)
    (optimizer_method : String) (seed : Nat) :
    ((n_hop < 1 ∨ n_memory < 1 ∨ item_update_mode ∉ validItemUpdateModes ∨
        optimizer_method ∉ validOptimizers) →
      ∃ e, RippleNet_construct dim n_hop kge_weight l2_weight lr n_memory
        item_update_mode using_all_hops n_entity n_relation optimizer_method
        seed = .error e) ∧
    (∀ cfg, RippleNet_construct dim n_hop kge_weight l2_weight lr n_memory
        item_update_mode using_all_hops n_entity n_relation optimizer_method
        seed = .ok cfg →
      cfg = ⟨dim, n_hop, kge_weight, l2_weight, lr, n_memory, item_update_mode,
        using_all_hops, n_entity, n_relation, optimizer_method, seed⟩) := by
  by_cases h1 : n_hop < 1
  · refine ⟨fun _ => ⟨.badHop, ?_⟩, fun cfg hcfg => ?_⟩
    · simp [RippleNet_construct, h1]
    · simp [RippleNet_construct, h1] at hcfg
  · by_cases h2 : n_memory < 1
    · refine ⟨fun _ => ⟨.badMemory, ?_⟩, fun cfg hcfg => ?_⟩
      · simp [RippleNet_construct, h1, h2]
      · simp [RippleNet_construct, h1, h2] at hcfg
    · by_cases h3 : item_update_mode ∈ validItemUpdateModes
      · by_cases h4 : optimizer_method ∈ validOptimizers
        · refine ⟨fun hbad => ?_, fun cfg hcfg => ?_⟩
          · rcases hbad with h | h | h | h
            · exact absurd h h1
            · exact absurd h h2
            · exact absurd h3 h
            · exact absurd h4 h
          · simp [RippleNet_construct, h1, h2, h3, h4] at hcfg
            exact hcfg.symm
        · refine ⟨fun _ => ⟨.badOptimizer, ?_⟩, fun cfg hcfg => ?_⟩
          · simp [RippleNet_construct, h1, h2, h3, h4]
          · simp [RippleNet_construct, h1, h2, h3, h4] at hcfg
      · refine ⟨fun _ => ⟨.badMode, ?_⟩, fun cfg hcfg => ?_⟩
        · simp [RippleNet_construct, h1, h2, h3]
        · simp [RippleNet_construct, h1, h2, h3] at hcfg

/-- Witness for C8: `n_hop = 0` is rejected at construction. -/
theorem ripplenet_construct_fail_fast_witness :
    ((0 : Nat) < 1 ∨ (32 : Nat) < 1 ∨
      "plus_transform" ∉ validItemUpdateModes ∨ "adam" ∉ validOptimizers) ∧
    ∃ e, RippleNet_construct 16 0 1 1 1 32 "plus_transform" true 10 5 "adam"
      12 = .error e :=
  ⟨Or.inl (by decide),
    (ripplenet_construct_fail_fast 16 0 1 1 1 32 "plus_transform" true 10 5
      "adam" 12).1 (Or.inl (by decide))⟩

/-- One `(user, item, rating)` row of the ratings dataframe (ratings already
binarized to 0/1 upstream). -/
structure Row where
  user : Nat
  item : Nat
  rating : Nat
deriving DecidableEq, Repr

/-- Modelled from the spec: the Embedding Store (spec section 4.3) together
with the learned transform used by the `plus_transform` and
`replace_transform` item-update policies (spec section 4.4). -/
structure Store where
  dim : Nat
  entityEmb : Nat → List ℝ
  relationEmb : Nat → List ℝ
  relationTransform : Nat → List (List ℝ)
  updateTransform : List (List ℝ)

/-- The four item-update policies of spec section 4.4 as a closed variant. -/
inductive ItemUpdateMode where
  | replace
  | plus
  | plus_transform
  | replace_transform
deriving DecidableEq, Repr

def dot (v w : List ℝ) : ℝ := (List.zipWith (· * ·) v w).sum

def vadd (v w : List ℝ) : List ℝ := List.zipWith (· + ·) v w

def smul (a : ℝ) (v : List ℝ) : List ℝ := v.map (a * ·)

def matvec (M : List (List ℝ)) (v : List ℝ) : List ℝ := M.map (fun row => dot row v)

def vzero (d : Nat) : List ℝ := List.replicate d 0

def vsum (d : Nat) (l : List (List ℝ)) : List ℝ := l.foldl vadd (vzero d)

noncomputable def softmax (xs : List ℝ) : List ℝ :=
  xs.map (fun x => Real.exp x / (xs.map Real.exp).sum)

noncomputable def sigmoid (x : ℝ) : ℝ := 1 / (1 + Real.exp (-x))

/-- Modelled from the spec: the per-hop response vector (spec section 4.4).
The candidate item embedding is projected through each triple's relation
transform, its inner product with the head embedding gives the unnormalized
attention score, scores are softmax-normalized across the hop's triples, and
the response is the attention-weighted sum of the tail embeddings. -/
noncomputable def hopResponse (st : Store) (item : List ℝ) (rs : List Triple) :
    List ℝ :=
  let w := softmax (rs.map (fun tr =>
    dot (matvec (st.relationTransform tr.r) item) (st.entityEmb tr.h)))
  vsum st.dim (List.zipWith smul w (rs.map (fun tr => st.entityEmb tr.t)))

/-- Modelled from the spec: the configurable item-representation update after
each hop (spec section 4.4). -/
noncomputable def updateItem (st : Store) (mode : ItemUpdateMode)
    (item o : List ℝ) : List ℝ :=
  match mode with
  | .replace => o
  | .plus => vadd item o
  | .plus_transform => (matvec st.updateTransform (vadd item o)).map sigmoid
  | .replace_transform => (matvec st.updateTransform o).map sigmoid

/-- Modelled from the spec: sequential propagation over the hops (spec
section 4.4): each hop's response is computed from the current item
representation, which is then updated; all per-hop responses are collected. -/
noncomputable def propagate (st : Store) (mode : ItemUpdateMode) :
    List ℝ → List (List Triple) → List ℝ × List (List ℝ)
  | item, [] => (item, [])
  | item, rs :: rest =>
    let o := hopResponse st item rs
    let r := propagate st mode (updateItem st mode item o) rest
    (r.1, o :: r.2)

/-- Modelled from the spec: the final click probability (spec section 4.4):
the user preference vector is the sum of all per-hop responses (or only the
last hop's), and the score is the sigmoid of its inner product with the
original candidate item embedding. -/
noncomputable def scoreOf (st : Store) (mode : ItemUpdateMode)
    (useAllHops : Bool) (ripple : List (List Triple)) (itemId : Nat) : ℝ :=
  let item0 := st.entityEmb itemId
  let os := (propagate st mode item0 ripple).2
  let pref := if useAllHops then vsum st.dim os else os.getLastD (vzero st.dim)
  sigmoid (dot pref item0)

/-- Modelled from the spec: `predict(batch_size, rows) → (labels, scores)`
(spec sections 4.6 and 6): scores every `(user, item)` row against the
read-only Embedding Store and returns the rows' labels with the click
probabilities. -/
noncomputable def predict (st : Store) (mode : ItemUpdateMode)
    (useAllHops : Bool) (rippleSets : Nat → List (List Triple))
    (data : List Row) : List Nat × List ℝ :=
  (data.map Row.rating,
   data.map (fun r => scoreOf st mode useAllHops (rippleSets r.user) r.item))

/-- `predict` with the Embedding Store threaded through explicitly, making the
read-only access visible: the store is returned untouched beside the
outputs. -/
noncomputable def predictS (st : Store) (mode : ItemUpdateMode)
    (useAllHops : Bool) (rippleSets : Nat → List (List Triple))
    (data : List Row) : Store × (List Nat × List ℝ) :=
  (st, predict st mode useAllHops rippleSets data)

/-- C7: calling `predict` twice in sequence with identical inputs — the
second call consuming the Embedding Store returned by the first — yields
identical labels and scores on both calls, and the store is unchanged. -/
theorem predict_idempotent (st : Store) (mode : ItemUpdateMode)
    (useAllHops : Bool) (rippleSets : Nat → List (List Triple))
    (data : List Row) :
    (predictS (predictS st mode useAllHops rippleSets data).1 mode useAllHops
        rippleSets data).2 =
      (predictS st mode useAllHops rippleSets data).2 ∧
    (predictS st mode useAllHops rippleSets data).1 = st :=
  ⟨rfl, rfl⟩

lemma sigmoid_pos (x : ℝ) : 0 < sigmoid x := by
  unfold sigmoid
  have h : (0 : ℝ) < 1 + Real.exp (-x) := by positivity
  exact div_pos one_pos h

lemma sigmoid_lt_one (x : ℝ) : sigmoid x < 1 := by
  unfold sigmoid
  rw [div_lt_one (by positivity)]
  have h := Real.exp_pos (-x)
  linarith

/-- C9: a user absent from the positive-history mapping receives `n_hop`
empty ripple sets, and for every candidate item the model still produces a
well-defined score strictly between 0 and 1 (the real-valued model has no
NaN; the strict bounds express that the prediction is a finite
probability). -/
theorem absent_user_scores (kg : KG) (rand : Nat → Nat)
    (history : List (Nat × List Nat)) (H m u : Nat)
    (hu : history.lookup u = none) (st : Store) (mode : ItemUpdateMode)
    (useAllHops : Bool) (itemId : Nat) :
    get_ripple_set kg rand history H m u = List.replicate H [] ∧
    0 < scoreOf st mode useAllHops (get_ripple_set kg rand history H m u)
      itemId ∧
    scoreOf st mode useAllHops (get_ripple_set kg rand history H m u)
      itemId < 1 := by
  have h1 : get_ripple_set kg rand history H m u = List.replicate H [] := by
    unfold get_ripple_set
    rw [hu]
  exact ⟨h1, sigmoid_pos _, sigmoid_lt_one _⟩

/-- A concrete one-dimensional Embedding Store used to instantiate the
scoring theorems. -/
noncomputable def storeW : Store where
  dim := 1
  entityEmb := fun _ => [1]
  relationEmb := fun _ => [1]
  relationTransform := fun _ => [[1]]
  updateTransform := [[1]]

/-- Witness for C9: user `0` is absent from the empty history mapping. -/
theorem absent_user_scores_witness :
    ([] : List (Nat × List Nat)).lookup 0 = none ∧
    (get_ripple_set kgLine rand0 [] 2 3 0 = List.replicate 2 [] ∧
      0 < scoreOf storeW .replace true (get_ripple_set kgLine rand0 [] 2 3 0)
        7 ∧
      scoreOf storeW .replace true (get_ripple_set kgLine rand0 [] 2 3 0) 7 <
        1) :=
  ⟨rfl, absent_user_scores kgLine rand0 [] 2 3 0 rfl storeW .replace true 7⟩

/-- The positive training rows:
`train_data.loc[train_data.rating == 1]` (notebook cell building
`user_history_dict`). -/
def positiveRows (data : List Row) : List Row :=
  data.filter (fun r => r.rating == 1)

/-- Embedded from the notebook cell
`user_history_dict = train_data.loc[train_data.rating == 1]
.groupby('user_index')['item'].apply(list).to_dict()`:
one key per distinct user occurring among the positive rows, mapped to the
list of that user's items from those rows in row order. -/
def user_history_dict (data : List Row) : List (Nat × List Nat) :=
  ((positiveRows data).map Row.user).dedup.map
    (fun u => (u, ((positiveRows data).filter (fun r => r.user == u)).map Row.item))

lemma lookup_map_keys (f : Nat → List Nat) :
    ∀ (keys : List Nat) (u : Nat),
      (keys.map (fun v => (v, f v))).lookup u =
        if u ∈ keys then some (f u) else none := by
  intro keys
  induction keys with
  | nil => intro u; simp
  | cons a as ih =>
    intro u
    by_cases h : u = a
    · subst h
      simp [List.lookup]
    · have hba : (u == a) = false := beq_eq_false_iff_ne.mpr h
      simp only [List.map_cons, List.lookup, hba, ih, List.mem_cons]
      simp [h]

/-- C10: the user-history mapping has a key for `u` exactly when the training
data has at least one row for `u` with rating 1; its value is then exactly the
list of `u`'s items from those positive rows, and it is never the empty
list — a user whose rows all have rating 0 is absent from the mapping. -/
theorem user_history_dict_spec (data : List Row) (u : Nat) :
    ((user_history_dict data).lookup u =
      if ∃ r ∈ data, r.rating = 1 ∧ r.user = u then
        some (((data.filter (fun r => r.rating == 1)).filter
          (fun r => r.user == u)).map Row.item)
      else none) ∧
    (∀ l, (user_history_dict data).lookup u = some l → l ≠ []) := by
  have hkey : (u ∈ ((positiveRows data).map Row.user).dedup) ↔
      ∃ r ∈ data, r.rating = 1 ∧ r.user = u := by
    simp only [List.mem_dedup, List.mem_map, positiveRows, List.mem_filter,
      beq_iff_eq]
    constructor
    · rintro ⟨r, ⟨hr, h1⟩, rfl⟩
      exact ⟨r, hr, h1, rfl⟩
    · rintro ⟨r, hr, h1, h2⟩
      exact ⟨r, ⟨hr, h1⟩, h2⟩
  have hmain : (user_history_dict data).lookup u =
      if ∃ r ∈ data, r.rating = 1 ∧ r.user = u then
        some (((data.filter (fun r => r.rating == 1)).filter
          (fun r => r.user == u)).map Row.item)
      else none := by
    rw [user_history_dict, lookup_map_keys]
    by_cases h : ∃ r ∈ data, r.rating = 1 ∧ r.user = u
    · rw [if_pos (hkey.mpr h), if_pos h]
      rfl
    · rw [if_neg (fun hm => h (hkey.mp hm)), if_neg h]
  refine ⟨hmain, fun l hl => ?_⟩
  rw [hmain] at hl
  by_cases h : ∃ r ∈ data, r.rating = 1 ∧ r.user = u
  · rw [if_pos h] at hl
    obtain ⟨r, hr, h1, h2⟩ := h
    injection hl with hl
    subst hl
    have hrmem : r ∈ (data.filter (fun r => r.rating == 1)).filter
        (fun r => r.user == u) := by
      simp only [List.mem_filter, beq_iff_eq]
      exact ⟨⟨hr, h1⟩, h2⟩
    exact List.ne_nil_of_mem (List.mem_map_of_mem Row.item hrmem)
  · rw [if_neg h] at hl
    cases hl

/-- Concrete training rows: user 1 has two positive rows, user 2 one
zero-rated row. -/
def rowsW : List Row := [⟨1, 10, 1⟩, ⟨1, 11, 1⟩, ⟨2, 20, 0⟩]

/-- Witness for C10: user 1 maps to its positive items `[10, 11]`, which is
non-empty. -/
theorem user_history_dict_spec_witness :
    (user_history_dict rowsW).lookup 1 = some [10, 11] ∧
    ([10, 11] : List Nat) ≠ [] :=
  ⟨by decide, (user_history_dict_spec rowsW 1).2 [10, 11] (by decide)⟩

end RippleNetSpec
